import Mathlib

/-
Verification of the EduAnalytics ingestion pipeline (src/ingest/flow.py and
src/ingest/transforms.py) against its natural-language specification.

The embedding models a polars DataFrame as an ordered list of column names
together with row-major data (each row is a list of cells, one per column,
in column order).  A cell is an optional string: polars nulls are `none`.
All operations used by the pipeline (rename, select, with_columns, drop,
zfill padding, left join on a lookup, the COPY reshape) are translated from
the source.  The warehouse fact table is a list of rows shaped by the COPY
column list; the year-scoped DELETE and the bulk COPY are modelled as
functions on that table, with their transaction boundaries taken from the
`engine.begin()` blocks in the source.
-/

/-- A polars cell: `none` is a null value. -/
abbrev Cell := Option String

/-- A polars DataFrame: ordered column names and row-major cell data.
Each row lists one cell per column, in column order. -/
structure Df where
  cols : List String
  rows : List (List Cell)
deriving DecidableEq, Repr

/-- Well-formedness: every row has exactly one cell per column. -/
def WF (df : Df) : Prop := ∀ r ∈ df.rows, r.length = df.cols.length

/-- Number of rows (`df.height` in polars). -/
def Df.height (df : Df) : Nat := df.rows.length

/-- Value of the named column in one row: walk names and cells in lockstep. -/
def cellAt : List String → List Cell → String → Cell
  | [], _, _ => none
  | _ :: _, [], _ => none
  | c0 :: cs, v :: r, c => if c0 = c then v else cellAt cs r c

/-- Replace the value of the named column in one row. -/
def setCellAt : List String → List Cell → String → Cell → List Cell
  | [], r, _, _ => r
  | _ :: _, [], _, _ => []
  | c0 :: cs, v :: r, c, w => if c0 = c then w :: r else v :: setCellAt cs r c w

/-- Remove the named column from a column list (`df.drop`). -/
def dropColNames : List String → String → List String
  | [], _ => []
  | c0 :: cs, c => if c0 = c then cs else c0 :: dropColNames cs c

/-- Remove the cell of the named column from one row (`df.drop`). -/
def dropColRow : List String → List Cell → String → List Cell
  | [], r, _ => r
  | _ :: _, [], _ => []
  | c0 :: cs, v :: r, c => if c0 = c then r else v :: dropColRow cs r c

/-- The values of one named column, top to bottom. -/
def getColV (df : Df) (c : String) : List Cell :=
  df.rows.map (fun r => cellAt df.cols r c)

/-- `df.rename`: map every column name through the first matching pair. -/
def renameCols (m : List (String × String)) (df : Df) : Df :=
  ⟨df.cols.map (fun c =>
      match m.find? (fun p => p.1 == c) with
      | some p => p.2
      | none => c),
   df.rows⟩

/-- `df.select(names)`: keep exactly the named columns, in the given order. -/
def selectCols (names : List String) (df : Df) : Df :=
  ⟨names, df.rows.map (fun r => names.map (fun c => cellAt df.cols r c))⟩

/-- `df.with_columns(expr.alias(name))`: replace the column in place when the
name exists, otherwise append it on the right, with the cell of each row
computed from that row. -/
def withExpr (name : String) (g : List Cell → Cell) (df : Df) : Df :=
  if name ∈ df.cols then
    ⟨df.cols, df.rows.map (fun r => setCellAt df.cols r name (g r))⟩
  else
    ⟨df.cols ++ [name], df.rows.map (fun r => r ++ [g r])⟩

/-- Python/polars `zfill`: pad on the left with zeros up to the target width,
keeping a leading sign character in front of the padding; a string at least
as long as the width is unchanged. -/
def zfillL (w : Nat) (s : List Char) : List Char :=
  match s with
  | [] => List.replicate w '0'
  | c :: rest =>
    if c = '+' ∨ c = '-' then c :: (List.replicate (w - (rest.length + 1)) '0' ++ rest)
    else List.replicate (w - (rest.length + 1)) '0' ++ (c :: rest)

/-- `zfill` on strings, as applied to a cell by the Fact Loader. -/
def zfillStr (w : Nat) (s : String) : String := (zfillL w s.toList).asString

/-- Lines 128-136 of flow.py: write the zero-padded code to a temp column,
drop the original, and rename the temp back — the column keeps its values
padded and moves to the right end.  A missing column is left alone. -/
def padCode (c : String) (w : Nat) (df : Df) : Df :=
  if c ∈ df.cols then
    ⟨dropColNames df.cols c ++ [c],
     df.rows.map (fun r =>
       dropColRow df.cols r c ++ [Option.map (zfillStr w) (cellAt df.cols r c)])⟩
  else df

/-- The rename map `ren` of load_tests (flow.py lines 92-114), in source
order: source column name paired with the database column name. -/
def renPairs : List (String × String) :=
  [("student_group_id", "subgroup"),
   ("grade", "grade"),
   ("total_students_tested", "tested"),
   ("total_students_tested_with_scores", "tested_with_scores"),
   ("mean_scale_score", "mean_scale_score"),
   ("percentage_standard_exceeded", "pct_exceeded"),
   ("count_standard_exceeded", "cnt_exceeded"),
   ("percentage_standard_met", "pct_met"),
   ("count_standard_met", "cnt_met"),
   ("percentage_standard_met_and_above", "pct_met_and_above"),
   ("count_standard_met_and_above", "cnt_met_and_above"),
   ("percentage_standard_nearly_met", "pct_nearly_met"),
   ("count_standard_nearly_met", "cnt_nearly_met"),
   ("percentage_standard_not_met", "pct_not_met"),
   ("count_standard_not_met", "cnt_not_met"),
   ("county_code", "county_code"),
   ("district_code", "district_code"),
   ("school_code", "school_code"),
   ("district_name", "district_name"),
   ("school_name", "school_name"),
   ("test_id", "test_id")]

/-- The COPY column list `expected_cols` of load_tests (flow.py 167-175). -/
def expected_cols : List String :=
  ["subgroup", "grade", "tested", "tested_with_scores", "mean_scale_score",
   "pct_exceeded", "cnt_exceeded", "pct_met", "cnt_met",
   "pct_met_and_above", "cnt_met_and_above", "pct_nearly_met", "cnt_nearly_met",
   "pct_not_met", "cnt_not_met",
   "county_name",
   "county_code", "district_code", "school_code",
   "district_name", "school_name", "test_id", "year_key"]

/-- Legacy synonym rename, flow.py lines 83-84: rename students_tested only
when total_students_tested is absent. -/
def synStep1 (df : Df) : Df :=
  if "students_tested" ∈ df.cols ∧ "total_students_tested" ∉ df.cols then
    renameCols [("students_tested", "total_students_tested")] df
  else df

/-- Legacy synonym rename, flow.py lines 86-89: two historical spellings of
the tested-with-scores column, each applied only when the canonical name
is absent, checked in source order. -/
def synStep2 (df : Df) : Df :=
  if "total_tested_with_scores_at_reporting_level" ∈ df.cols ∧
     "total_students_tested_with_scores" ∉ df.cols then
    renameCols [("total_tested_with_scores_at_reporting_level",
                 "total_students_tested_with_scores")] df
  else if "students_with_scores" ∈ df.cols ∧
          "total_students_tested_with_scores" ∉ df.cols then
    renameCols [("students_with_scores", "total_students_tested_with_scores")] df
  else df

/-- The full legacy-synonym rename layer of load_tests (flow.py 83-89). -/
def synonymLayer (df : Df) : Df := synStep2 (synStep1 df)

/-- flow.py 116-118: keep the rename-map columns that are present, in the
order of the rename map, and rename them to the database names. -/
def renameSelect (df : Df) : Df :=
  renameCols renPairs (selectCols ((renPairs.map (fun p => p.1)).filter (· ∈ df.cols)) df)

/-- flow.py 140-146: the composite cds code cell — the concatenation of the
three padded codes; null when any of the three is null. -/
def cdsCell (a b c : Cell) : Cell :=
  match a, b, c with
  | some x, some y, some z => some (zfillStr 2 x ++ zfillStr 5 y ++ zfillStr 7 z)
  | _, _, _ => none

/-- flow.py 149-161: the county_name cell joined from the lookup table —
the county_name of the first lookup row whose padded county_code equals
the row key; null keys match nothing. -/
def countyLookupCell (cl : Df) (k : Cell) : Cell :=
  match k with
  | none => none
  | some kv =>
    match cl.rows.find? (fun rc => cellAt cl.cols rc "county_code" == some kv) with
    | none => none
    | some rc => cellAt cl.cols rc "county_name"

/-- flow.py 148-164: best-effort left join of county_name from the
entities-derived lookup, guarded on the presence of county_code in the
facts and of county_code and county_name in the lookup; the lookup codes
are padded in place first. -/
def countyJoinStep (lookup : Option Df) (df : Df) : Df :=
  match lookup with
  | none => df
  | some cl =>
    if "county_code" ∈ df.cols then
      if "county_name" ∈ cl.cols then
        withExpr "county_name"
          (fun r =>
            countyLookupCell
              (if "county_code" ∈ cl.cols then
                withExpr "county_code"
                  (fun rc => Option.map (zfillStr 2) (cellAt cl.cols rc "county_code")) cl
               else cl)
              (cellAt df.cols r "county_code"))
          df
      else df
    else df

/-- flow.py 178-180: add every missing COPY column as an explicit null
column. -/
def addMissing (df : Df) : Df :=
  expected_cols.foldl
    (fun d c => if c ∈ d.cols then d else withExpr c (fun _ => none) d) df

/-- flow.py 166-183: reconcile to the COPY column list — null-fill the
missing columns, then select exactly the COPY columns in COPY order. -/
def reconcile (df : Df) : Df := selectCols expected_cols (addMissing df)

/-- flow.py 139-146: when all three codes are present, append the composite
cds_code column computed from the padded codes of each row. -/
def cdsStep (df : Df) : Df :=
  if "county_code" ∈ df.cols ∧ "district_code" ∈ df.cols ∧
     "school_code" ∈ df.cols then
    withExpr "cds_code"
      (fun r => cdsCell (cellAt df.cols r "county_code")
                  (cellAt df.cols r "district_code")
                  (cellAt df.cols r "school_code")) df
  else df

/-- load_tests steps before the COPY reconciliation (flow.py 83-164):
synonym renames, select+rename to database names, year_key tag,
independent zero-padding of the three codes, composite cds code, and the
best-effort county_name join. -/
def shaped (tests : Df) (y : Nat) (lookup : Option Df) : Df :=
  countyJoinStep lookup
    (cdsStep
      (padCode "school_code" 7
        (padCode "district_code" 5
          (padCode "county_code" 2
            (withExpr "year_key" (fun _ => some (toString y))
              (renameSelect (synonymLayer tests)))))))

/-- The full reshape of load_tests: the shaping steps followed by the COPY
reconciliation. -/
def reshape (tests : Df) (y : Nat) (lookup : Option Df) : Df :=
  reconcile (shaped tests y lookup)

/-- The warehouse fact table: rows in COPY column order. -/
abbrev DbState := List (List Cell)

/-- The year_key cell of a fact row, read against the COPY column list. -/
def yearCell (r : List Cell) : Cell := cellAt expected_cols r "year_key"

/-- delete_scores_for_year (flow.py 57-70): DELETE FROM fact_scores WHERE
year_key = y, run and committed inside its own engine.begin transaction. -/
def delete_scores_for_year (y : Nat) (db : DbState) : DbState :=
  db.filter (fun r => !(yearCell r == some (toString y)))

/-- The rows a load_tests call appends for one table: none when the input
is absent or empty or lacks test_id after the renames, otherwise the rows
of the reshaped table. -/
def insertedRows (tests : Option Df) (y : Nat) (lookup : Option Df) :
    List (List Cell) :=
  match tests with
  | none => []
  | some t =>
    if t.height = 0 then []
    else if "test_id" ∈ (renameSelect (synonymLayer t)).cols then
      (reshape t y lookup).rows
    else []

/-- load_tests (flow.py 72-214).  Returns the fact table after the call:
an early return (input absent, empty, or without test_id) leaves the table
unchanged and raises nothing; otherwise the reshaped rows are bulk-copied
inside one engine.begin transaction, modelled by the insertOk flag — a
failing COPY aborts only that transaction and surfaces the error. -/
def load_tests (db : DbState) (tests : Option Df) (y : Nat)
    (lookup : Option Df) (insertOk : Bool) : Except String DbState :=
  match tests with
  | none => .ok db
  | some t =>
    if t.height = 0 then .ok db
    else if "test_id" ∈ (renameSelect (synonymLayer t)).cols then
      if insertOk then .ok (db ++ (reshape t y lookup).rows)
      else .error "COPY failed"
    else .ok db

/-- One Fact Loader run for a year, as the orchestrator drives it
(flow.py 405-430): delete_scores_for_year commits in its own transaction,
then load_tests runs in a second transaction; if the COPY fails, only the
second transaction rolls back, so the committed delete remains. -/
def run_delete_then_load (db : DbState) (tests : Option Df) (y : Nat)
    (lookup : Option Df) (insertOk : Bool) : DbState :=
  match load_tests (delete_scores_for_year y db) tests y lookup insertOk with
  | .ok db2 => db2
  | .error _ => delete_scores_for_year y db

/-- Lowercase a string character by character, as Python str.lower does for
the ASCII names involved here. -/
def lowerStr (s : String) : String := (s.toList.map Char.toLower).asString

/-- Substring test, Python `a in b` on strings. -/
def containsSub (s sub : String) : Bool := decide (sub.toList <:+: s.toList)

/-- One step of the regex scan of caret_zip_urls (flow.py 30): at the head
of the text, an occurrence of href=" (case-insensitive) captures the run of
non-quote characters up to the closing quote when that run is at least one
character followed by .zip (case-insensitive); the scan resumes after the
closing quote of a match and one character further on a failed attempt.
The fuel argument bounds the recursion and never runs out when it starts
at the text length plus one. -/
def scanZipAux : Nat → List Char → List String
  | 0, _ => []
  | _ + 1, [] => []
  | fuel + 1, ch :: rest =>
    if ((ch :: rest).take 6).map Char.toLower = "href=\"".toList then
      (fun after =>
        (fun run =>
          if 5 ≤ run.length ∧
             ".zip".toList <:+ run.map Char.toLower ∧
             (after.drop run.length).take 1 = ['"'] then
            run.asString :: scanZipAux fuel ((after.drop run.length).drop 1)
          else scanZipAux fuel rest)
        (after.takeWhile (fun c => ¬ c = '"')))
      ((ch :: rest).drop 6)
    else scanZipAux fuel rest

/-- All .zip href targets of a listing page, in page order, as the regex
findall of caret_zip_urls produces them. -/
def scanZipHrefs (html : String) : List String :=
  scanZipAux (html.toList.length + 1) html.toList

/-- flow.py 36-37: a root-relative link is resolved against the publisher
host; any other href is kept as written. -/
def resolveUrl (u : String) : String :=
  if ['/'] <+: u.toList then "https://caaspp-elpac.ets.org" ++ u else u

/-- flow.py 41: the selection filter — Smarter Balanced combined csv files,
excluding the subject-split math and ela files. -/
def zipFilter (u : String) : Bool :=
  containsSub (lowerStr u) "sb_" && containsSub (lowerStr u) "csv" &&
  containsSub (lowerStr u) "all" && !containsSub (lowerStr u) "math" &&
  !containsSub (lowerStr u) "ela"

/-- Order-preserving first-occurrence deduplication, as
list(dict.fromkeys(out)) produces (flow.py 45). -/
def dedupFirstAux (seen : List String) : List String → List String
  | [] => []
  | x :: xs =>
    if x ∈ seen then dedupFirstAux seen xs
    else x :: dedupFirstAux (x :: seen) xs

/-- Deduplicate keeping the first occurrence of each element. -/
def dedupFirst (l : List String) : List String := dedupFirstAux [] l

/-- caret_zip_urls (flow.py 27-45): extract the .zip hrefs, resolve the
root-relative ones against the publisher host, apply the selection filter,
and deduplicate preserving order. -/
def caret_zip_urls (html : String) : List String :=
  dedupFirst (((scanZipHrefs html).map resolveUrl).filter zipFilter)

/-- Modelled from the spec: an absolute URL, one that carries a scheme
rather than being relative to some base — the spec output contract of the
Archive Locator. -/
def isAbsoluteUrl (u : String) : Bool := decide ("http".toList <+: u.toList)

/-- transforms.py 36-37: the tests classification signature on a
normalized column set. -/
def tests_signature (cols : List String) : Bool :=
  cols.contains "test_type" && cols.contains "test_id" &&
  cols.contains "student_group_id" && cols.contains "mean_scale_score" &&
  (cols.contains "total_students_tested_with_scores" ||
   cols.contains "total_tested_with_scores_at_reporting_level")

/-- transforms.py 39-40: the entities classification signature on a
normalized column set. -/
def entities_signature (cols : List String) : Bool :=
  cols.contains "county_code" && cols.contains "district_code" &&
  cols.contains "school_code" && cols.contains "type_id" &&
  cols.contains "test_year" && !cols.contains "test_type"

/-- The two recognized table kinds of parse_zip_caret. -/
inductive TableKind where
  | tests
  | entities
deriving DecidableEq, Repr

/-- parse_zip_caret classification (transforms.py 35-43): the tests
signature is checked first, then the entities signature, and an entry that
matches neither is dropped. -/
def classify_columns (cols : List String) : Option TableKind :=
  if tests_signature cols then some TableKind.tests
  else if entities_signature cols then some TableKind.entities
  else none

/-- The null_values list passed to both pl.read_csv calls
(transforms.py 9 and 12). -/
def null_values : List String := ["", "NA", "N/A", "*"]

/-- One source cell, as pl.read_csv interprets it under the null_values
option: a listed sentinel becomes a null cell, anything else stays. -/
def nullifyCell (f : String) : Cell :=
  if f ∈ null_values then none else some f

/-- A delimited text body split into rows and cells: lines on newline,
cells on the separator, each cell read through the null_values rule.  This
models the separator and null handling of pl.read_csv, the part of the
reader the pipeline depends on. -/
def parseDelimited (sep : Char) (raw : String) : List (List Cell) :=
  (raw.toList.splitOn '\n').map
    (fun line => (line.splitOn sep).map (fun f => nullifyCell f.asString))

/-- read_caret_csv (transforms.py 8-9): caret-separated, null_values. -/
def read_caret_csv (raw : String) : List (List Cell) := parseDelimited '^' raw

/-- read_comma_csv (transforms.py 11-12): comma-separated, null_values. -/
def read_comma_csv (raw : String) : List (List Cell) := parseDelimited ',' raw

/-- Strip matching characters from both ends, Python str.strip. -/
def stripEnds (p : Char → Bool) (s : List Char) : List Char :=
  ((s.dropWhile p).reverse.dropWhile p).reverse

/-- Python str.strip() with no argument: strip whitespace. -/
def pyTrim (s : List Char) : List Char := stripEnds Char.isWhitespace s

/-- A character stripped by .strip(" |") in build_pinecone_index. -/
def isSepChar (c : Char) : Bool := c = ' ' || c = '|'

/-- The head of the list exists and is not a stripped character. -/
def headNotSep (s : List Char) : Bool :=
  match s with
  | [] => false
  | c :: _ => !isSepChar c

/-- The last element of the list exists and is not a stripped character. -/
def lastNotSep (s : List Char) : Bool := headNotSep s.reverse

/-- build_pinecone_index entity label (flow.py 273-280): the county name is
trimmed and suffixed with County, the district and school names are
trimmed, the three segments are joined with a pipe separator, and leading
and trailing separator characters are stripped.  Null cells read as empty
strings. -/
def entityLabelL (county district school : Option String) : List Char :=
  stripEnds isSepChar
    (List.intercalate " | ".toList
      [pyTrim (county.getD "").toList ++ " County".toList,
       pyTrim (district.getD "").toList,
       pyTrim (school.getD "").toList])

/-- The entity label as the string stored in the index text. -/
def entity_label (county district school : Option String) : String :=
  (entityLabelL county district school).asString

theorem cellAt_map_self (names : List String) (f : String → Cell) (c : String)
    (hc : c ∈ names) : cellAt names (names.map f) c = f c := by
  induction names with
  | nil => cases hc
  | cons n ns ih =>
    simp only [List.map_cons, cellAt]
    by_cases h : n = c
    · subst h; simp
    · simp only [h, if_false]
      exact ih (by cases hc with
        | head => exact absurd rfl h
        | tail _ h2 => exact h2)

theorem cellAt_append_single (cols : List String) (r : List Cell)
    (n : String) (v : Cell) (b : String) (hlen : r.length = cols.length)
    (hb : b ≠ n) : cellAt (cols ++ [n]) (r ++ [v]) b = cellAt cols r b := by
  induction cols generalizing r with
  | nil =>
    cases r with
    | nil => simp [cellAt, Ne.symm hb]
    | cons x xs => simp at hlen
  | cons c0 cs ih =>
    cases r with
    | nil => simp at hlen
    | cons x xs =>
      simp only [List.cons_append, cellAt]
      by_cases h : c0 = b
      · simp [h]
      · simp only [h, if_false]
        exact ih xs (by simpa using hlen)

theorem cellAt_append_self (cols : List String) (r : List Cell)
    (n : String) (v : Cell) (hlen : r.length = cols.length)
    (hn : n ∉ cols) : cellAt (cols ++ [n]) (r ++ [v]) n = v := by
  induction cols generalizing r with
  | nil =>
    cases r with
    | nil => simp [cellAt]
    | cons x xs => simp at hlen
  | cons c0 cs ih =>
    cases r with
    | nil => simp at hlen
    | cons x xs =>
      simp only [List.cons_append, cellAt]
      have h : c0 ≠ n := by intro h; exact hn (h ▸ List.mem_cons_self c0 cs)
      simp only [h, if_false]
      exact ih xs (by simpa using hlen) (fun hmem => hn (List.mem_cons_of_mem c0 hmem))

theorem cellAt_setCellAt_other (cols : List String) (r : List Cell)
    (c : String) (w : Cell) (b : String) (hb : b ≠ c) :
    cellAt cols (setCellAt cols r c w) b = cellAt cols r b := by
  induction cols generalizing r with
  | nil => simp [setCellAt]
  | cons c0 cs ih =>
    cases r with
    | nil => simp [setCellAt]
    | cons x xs =>
      simp only [setCellAt]
      by_cases h : c0 = c
      · have hb0 : c0 ≠ b := fun he => hb (he ▸ h)
        simp [h, cellAt, hb0, Ne.symm hb]
      · simp only [h, if_false, cellAt]
        by_cases h2 : c0 = b
        · simp [h2]
        · simp [h2, ih xs]

theorem setCellAt_length (cols : List String) (r : List Cell)
    (c : String) (w : Cell) : (setCellAt cols r c w).length = r.length := by
  induction cols generalizing r with
  | nil => simp [setCellAt]
  | cons c0 cs ih =>
    cases r with
    | nil => simp [setCellAt]
    | cons x xs =>
      simp only [setCellAt]
      by_cases h : c0 = c
      · simp [h]
      · simp [h, ih xs]

theorem dropCol_length (cols : List String) (r : List Cell) (c : String)
    (hlen : r.length = cols.length) :
    (dropColRow cols r c).length = (dropColNames cols c).length := by
  induction cols generalizing r with
  | nil =>
    cases r with
    | nil => simp [dropColRow, dropColNames]
    | cons y ys => simp at hlen
  | cons c0 cs ih =>
    cases r with
    | nil => simp at hlen
    | cons x xs =>
      simp only [dropColRow, dropColNames]
      by_cases h : c0 = c
      · simpa [h] using hlen
      · simp [h, ih xs (by simpa using hlen)]

theorem mem_dropColNames (cols : List String) (c b : String) (hb : b ≠ c) :
    b ∈ dropColNames cols c ↔ b ∈ cols := by
  induction cols with
  | nil => simp [dropColNames]
  | cons c0 cs ih =>
    simp only [dropColNames]
    by_cases h : c0 = c
    · subst h
      simp [ih, Ne.symm (by exact hb)]
      intro he; exact absurd he hb
    · simp [h, ih]

theorem cellAt_dropCol (cols : List String) (r : List Cell) (c : String)
    (x : Cell) (b : String) (hb : b ≠ c) (hlen : r.length = cols.length) :
    cellAt (dropColNames cols c ++ [c]) (dropColRow cols r c ++ [x]) b =
      cellAt cols r b := by
  induction cols generalizing r with
  | nil =>
    cases r with
    | nil => simp [dropColNames, dropColRow, cellAt, Ne.symm hb]
    | cons y ys => simp at hlen
  | cons c0 cs ih =>
    cases r with
    | nil => simp at hlen
    | cons y ys =>
      simp only [dropColNames, dropColRow]
      by_cases h : c0 = c
      · subst h
        rw [if_pos rfl, if_pos rfl,
          show cellAt (c0 :: cs) (y :: ys) b = cellAt cs ys b from by
            simp [cellAt, Ne.symm hb]]
        exact cellAt_append_single cs ys c0 x b (by simpa using hlen) hb
      · simp only [h, if_false, List.cons_append, cellAt]
        by_cases h2 : c0 = b
        · simp [h2]
        · simp [h2, ih ys (by simpa using hlen)]

theorem WF_selectCols (names : List String) (df : Df) :
    WF (selectCols names df) := by
  intro r hr
  simp only [selectCols, List.mem_map] at hr
  obtain ⟨r0, _, rfl⟩ := hr
  simp [selectCols]

theorem height_selectCols (names : List String) (df : Df) :
    (selectCols names df).height = df.height := by
  simp [selectCols, Df.height]

theorem WF_renameCols (m : List (String × String)) (df : Df) (h : WF df) :
    WF (renameCols m df) := by
  intro r hr
  simp only [renameCols] at hr ⊢
  simpa using h r hr

theorem height_renameCols (m : List (String × String)) (df : Df) :
    (renameCols m df).height = df.height := rfl

theorem WF_withExpr (name : String) (g : List Cell → Cell) (df : Df)
    (h : WF df) : WF (withExpr name g df) := by
  intro r hr
  simp only [withExpr] at hr ⊢
  by_cases hm : name ∈ df.cols
  · simp only [hm, if_true] at hr ⊢
    simp only [List.mem_map] at hr
    obtain ⟨r0, hr0, rfl⟩ := hr
    simp [setCellAt_length, h r0 hr0]
  · simp only [hm, if_false] at hr ⊢
    simp only [List.mem_map] at hr
    obtain ⟨r0, hr0, rfl⟩ := hr
    simp [h r0 hr0]

theorem height_withExpr (name : String) (g : List Cell → Cell) (df : Df) :
    (withExpr name g df).height = df.height := by
  simp only [withExpr]
  by_cases hm : name ∈ df.cols <;> simp [hm, Df.height]

theorem WF_padCode (c : String) (w : Nat) (df : Df) (h : WF df) :
    WF (padCode c w df) := by
  simp only [padCode]
  by_cases hm : c ∈ df.cols
  · simp only [hm, if_true]
    intro r hr
    simp only [List.mem_map] at hr
    obtain ⟨r0, hr0, rfl⟩ := hr
    simp [dropCol_length df.cols r0 c (h r0 hr0)]
  · simpa [hm] using h

theorem height_padCode (c : String) (w : Nat) (df : Df) :
    (padCode c w df).height = df.height := by
  simp only [padCode]
  by_cases hm : c ∈ df.cols <;> simp [hm, Df.height]

theorem WF_countyJoinStep (lookup : Option Df) (df : Df) (h : WF df) :
    WF (countyJoinStep lookup df) := by
  cases lookup with
  | none => exact h
  | some cl =>
    simp only [countyJoinStep]
    by_cases h1 : "county_code" ∈ df.cols
    · by_cases h2 : "county_name" ∈ cl.cols
      · simp only [h1, h2, if_true]
        exact WF_withExpr _ _ df h
      · simpa [h1, h2] using h
    · simpa [h1] using h

theorem height_countyJoinStep (lookup : Option Df) (df : Df) :
    (countyJoinStep lookup df).height = df.height := by
  cases lookup with
  | none => rfl
  | some cl =>
    simp only [countyJoinStep]
    by_cases h1 : "county_code" ∈ df.cols
    · by_cases h2 : "county_name" ∈ cl.cols
      · simp [h1, h2, height_withExpr]
      · simp [h1, h2]
    · simp [h1]

theorem getColV_withExpr_other (name : String) (g : List Cell → Cell)
    (df : Df) (b : String) (h : WF df) (hb : b ≠ name) :
    getColV (withExpr name g df) b = getColV df b := by
  simp only [withExpr, getColV]
  by_cases hm : name ∈ df.cols
  · simp only [hm, if_true, List.map_map]
    exact List.map_congr_left (fun r _ =>
      cellAt_setCellAt_other df.cols r name (g r) b hb)
  · simp only [hm, if_false, List.map_map]
    exact List.map_congr_left (fun r hr =>
      cellAt_append_single df.cols r name (g r) b (h r hr) hb)

theorem getColV_withExpr_new (name : String) (g : List Cell → Cell)
    (df : Df) (h : WF df) (hm : name ∉ df.cols) :
    getColV (withExpr name g df) name = df.rows.map g := by
  simp only [withExpr, hm, if_false, getColV, List.map_map]
  exact List.map_congr_left (fun r hr =>
    cellAt_append_self df.cols r name (g r) (h r hr) hm)

theorem getColV_padCode_other (c : String) (w : Nat) (df : Df) (b : String)
    (h : WF df) (hb : b ≠ c) :
    getColV (padCode c w df) b = getColV df b := by
  simp only [padCode]
  by_cases hm : c ∈ df.cols
  · simp only [hm, if_true, getColV, List.map_map]
    exact List.map_congr_left (fun r hr =>
      cellAt_dropCol df.cols r c _ b hb (h r hr))
  · simp [hm]

theorem getColV_selectCols (names : List String) (df : Df) (c : String)
    (hc : c ∈ names) :
    getColV (selectCols names df) c = getColV df c := by
  simp only [selectCols, getColV, List.map_map]
  exact List.map_congr_left (fun r _ => cellAt_map_self names _ c hc)

theorem getColV_countyJoinStep_other (lookup : Option Df) (df : Df)
    (b : String) (h : WF df) (hb : b ≠ "county_name") :
    getColV (countyJoinStep lookup df) b = getColV df b := by
  cases lookup with
  | none => rfl
  | some cl =>
    simp only [countyJoinStep]
    by_cases h1 : "county_code" ∈ df.cols
    · by_cases h2 : "county_name" ∈ cl.cols
      · simp only [h1, h2, if_true]
        exact getColV_withExpr_other _ _ df b h hb
      · simp [h1, h2]
    · simp [h1]

theorem mem_cols_withExpr (name : String) (g : List Cell → Cell) (df : Df)
    (b : String) (hb : b ∈ df.cols) : b ∈ (withExpr name g df).cols := by
  simp only [withExpr]
  by_cases hm : name ∈ df.cols <;> simp [hm, hb]

theorem mem_cols_padCode (c : String) (w : Nat) (df : Df) (b : String)
    (hb : b ∈ df.cols) : b ∈ (padCode c w df).cols := by
  simp only [padCode]
  by_cases hm : c ∈ df.cols
  · simp only [hm, if_true]
    by_cases he : b = c
    · simp [he]
    · simp [List.mem_append, (mem_dropColNames df.cols c b he).mpr hb]
  · simp [hm, hb]

theorem mem_cols_countyJoinStep (lookup : Option Df) (df : Df) (b : String)
    (hb : b ∈ df.cols) : b ∈ (countyJoinStep lookup df).cols := by
  cases lookup with
  | none => exact hb
  | some cl =>
    simp only [countyJoinStep]
    by_cases h1 : "county_code" ∈ df.cols
    · by_cases h2 : "county_name" ∈ cl.cols
      · simp only [h1, h2, if_true]
        exact mem_cols_withExpr _ _ df b hb
      · simp [h1, h2, hb]
    · simp [h1, hb]

theorem WF_cdsStep (df : Df) (h : WF df) : WF (cdsStep df) := by
  simp only [cdsStep]
  split
  · exact WF_withExpr _ _ df h
  · exact h

theorem height_cdsStep (df : Df) : (cdsStep df).height = df.height := by
  simp only [cdsStep]
  split
  · exact height_withExpr _ _ df
  · rfl

theorem getColV_cdsStep_other (df : Df) (b : String) (h : WF df)
    (hb : b ≠ "cds_code") : getColV (cdsStep df) b = getColV df b := by
  simp only [cdsStep]
  split
  · exact getColV_withExpr_other _ _ df b h hb
  · rfl

theorem mem_cols_cdsStep (df : Df) (b : String) (hb : b ∈ df.cols) :
    b ∈ (cdsStep df).cols := by
  simp only [cdsStep]
  split
  · exact mem_cols_withExpr _ _ df b hb
  · exact hb

theorem find_rename_mem (m : List (String × String)) (c : String)
    (hc : c ∈ m.map (fun p => p.1)) :
    (match m.find? (fun p => p.1 == c) with
     | some p => p.2
     | none => c) ∈ m.map (fun p => p.2) := by
  induction m with
  | nil => simp at hc
  | cons p ps ih =>
    by_cases h : p.1 = c
    · rw [List.find?_cons_of_pos _ (by simp [h])]
      simp
    · rw [List.find?_cons_of_neg _ (by simp [h])]
      have hc2 : c ∈ ps.map (fun p => p.1) := by
        simp only [List.map_cons, List.mem_cons] at hc
        cases hc with
        | inl he => exact absurd he.symm h
        | inr ht => exact ht
      simp only [List.map_cons, List.mem_cons]
      right
      exact ih hc2

theorem cols_renameSelect_subset (df : Df) (b : String)
    (hb : b ∈ (renameSelect df).cols) : b ∈ renPairs.map (fun p => p.2) := by
  simp only [renameSelect, renameCols, selectCols, List.map_map,
    List.mem_map, List.mem_filter] at hb
  obtain ⟨c, ⟨hc1, _⟩, hc3⟩ := hb
  rw [← hc3]
  exact find_rename_mem renPairs c (List.mem_map.mpr hc1)

theorem year_key_not_renameSelect (df : Df) :
    "year_key" ∉ (renameSelect df).cols := by
  intro h
  have := cols_renameSelect_subset df _ h
  revert this
  decide

theorem WF_renameSelect (df : Df) : WF (renameSelect df) :=
  WF_renameCols _ _ (WF_selectCols _ df)

theorem WF_shaped (t : Df) (y : Nat) (l : Option Df) : WF (shaped t y l) := by
  unfold shaped
  exact WF_countyJoinStep _ _ (WF_cdsStep _ (WF_padCode _ _ _ (WF_padCode _ _ _
    (WF_padCode _ _ _ (WF_withExpr _ _ _ (WF_renameSelect _))))))

theorem year_key_mem_shaped (t : Df) (y : Nat) (l : Option Df) :
    "year_key" ∈ (shaped t y l).cols := by
  unfold shaped
  apply mem_cols_countyJoinStep
  apply mem_cols_cdsStep
  apply mem_cols_padCode
  apply mem_cols_padCode
  apply mem_cols_padCode
  simp only [withExpr, year_key_not_renameSelect, if_false]
  simp

theorem getColV_shaped_year (t : Df) (y : Nat) (l : Option Df) :
    getColV (shaped t y l) "year_key" =
      List.replicate (shaped t y l).height (some (toString y)) := by
  have h1 : WF (renameSelect (synonymLayer t)) := WF_renameSelect _
  have h2 : WF (withExpr "year_key" (fun _ => some (toString y))
      (renameSelect (synonymLayer t))) := WF_withExpr _ _ _ h1
  have h3 : WF (padCode "county_code" 2 (withExpr "year_key"
      (fun _ => some (toString y)) (renameSelect (synonymLayer t)))) :=
    WF_padCode _ _ _ h2
  have h4 : WF (padCode "district_code" 5 (padCode "county_code" 2
      (withExpr "year_key" (fun _ => some (toString y))
      (renameSelect (synonymLayer t))))) := WF_padCode _ _ _ h3
  have h5 : WF (padCode "school_code" 7 (padCode "district_code" 5
      (padCode "county_code" 2 (withExpr "year_key"
      (fun _ => some (toString y)) (renameSelect (synonymLayer t)))))) :=
    WF_padCode _ _ _ h4
  have h6 : WF (cdsStep (padCode "school_code" 7 (padCode "district_code" 5
      (padCode "county_code" 2 (withExpr "year_key"
      (fun _ => some (toString y)) (renameSelect (synonymLayer t))))))) :=
    WF_cdsStep _ h5
  unfold shaped
  rw [getColV_countyJoinStep_other _ _ _ h6 (by decide),
    getColV_cdsStep_other _ _ h5 (by decide),
    getColV_padCode_other _ _ _ _ h4 (by decide),
    getColV_padCode_other _ _ _ _ h3 (by decide),
    getColV_padCode_other _ _ _ _ h2 (by decide),
    getColV_withExpr_new _ _ _ h1 (year_key_not_renameSelect _)]
  rw [show (countyJoinStep l (cdsStep (padCode "school_code" 7
      (padCode "district_code" 5 (padCode "county_code" 2 (withExpr "year_key"
      (fun _ => some (toString y))
      (renameSelect (synonymLayer t)))))))).height =
      (renameSelect (synonymLayer t)).rows.length from by
    rw [height_countyJoinStep, height_cdsStep, height_padCode, height_padCode,
      height_padCode, height_withExpr]
    rfl]
  simp

/-- One step of the null-fill loop of flow.py 178-180. -/
def amStep (d : Df) (c : String) : Df :=
  if c ∈ d.cols then d else withExpr c (fun _ => none) d

theorem addMissing_eq_foldl (df : Df) :
    addMissing df = expected_cols.foldl amStep df := rfl

theorem amStep_cols (d : Df) (c : String) :
    (amStep d c).cols = d.cols ∨ (amStep d c).cols = d.cols ++ [c] := by
  simp only [amStep]
  by_cases h : c ∈ d.cols
  · left; simp [h]
  · right; simp [withExpr, h]

theorem WF_amStep (d : Df) (c : String) (h : WF d) : WF (amStep d c) := by
  simp only [amStep]
  split
  · exact h
  · exact WF_withExpr _ _ d h

theorem height_amStep (d : Df) (c : String) : (amStep d c).height = d.height := by
  simp only [amStep]
  split
  · rfl
  · exact height_withExpr _ _ d

theorem amFold (names : List String) :
    ∀ d : Df, WF d →
      WF (names.foldl amStep d) ∧
      (names.foldl amStep d).height = d.height ∧
      (∀ b, b ∈ d.cols → b ∈ (names.foldl amStep d).cols) ∧
      (∀ b, b ∈ names → b ∈ (names.foldl amStep d).cols) ∧
      (∀ b, b ∈ d.cols → getColV (names.foldl amStep d) b = getColV d b) ∧
      (∀ b, b ∉ d.cols → b ∈ names →
        getColV (names.foldl amStep d) b = List.replicate d.height none) := by
  induction names with
  | nil =>
    intro d h
    refine ⟨h, rfl, fun b hb => hb, fun b hb => absurd hb (by simp),
      fun b _ => rfl, fun b _ hb => absurd hb (by simp)⟩
  | cons c cs ih =>
    intro d h
    have hstep : WF (amStep d c) := WF_amStep d c h
    obtain ⟨ih1, ih2, ih3, ih4, ih5, ih6⟩ := ih (amStep d c) hstep
    have hmem_step : ∀ b, b ∈ d.cols → b ∈ (amStep d c).cols := by
      intro b hb
      rcases amStep_cols d c with he | he <;> simp [he, hb]
    have hc_step : c ∈ (amStep d c).cols := by
      simp only [amStep]
      by_cases hc : c ∈ d.cols
      · simp [hc]
      · simp [withExpr, hc]
    have hget_step : ∀ b, b ∈ d.cols → getColV (amStep d c) b = getColV d b := by
      intro b hb
      simp only [amStep]
      by_cases hc : c ∈ d.cols
      · simp [hc]
      · have hbc : b ≠ c := fun he => hc (he ▸ hb)
        simp only [hc, if_false]
        exact getColV_withExpr_other c _ d b h hbc
    simp only [List.foldl_cons]
    refine ⟨ih1, by rw [ih2, height_amStep], ?_, ?_, ?_, ?_⟩
    · intro b hb
      exact ih3 b (hmem_step b hb)
    · intro b hb
      rcases List.mem_cons.mp hb with he | ht
      · exact ih3 b (he ▸ hc_step)
      · exact ih4 b ht
    · intro b hb
      rw [ih5 b (hmem_step b hb), hget_step b hb]
    · intro b hb hbn
      by_cases he : b = c
      · subst he
        rw [ih5 b hc_step]
        simp only [amStep, hb, if_false]
        rw [getColV_withExpr_new b _ d h hb]
        simp [Df.height]
      · have hbs : b ∉ (amStep d c).cols := by
          rcases amStep_cols d c with hcc | hcc <;> simp [hcc, hb, he]
        have hbn2 : b ∈ cs := by
          rcases List.mem_cons.mp hbn with h1 | h2
          · exact absurd h1 he
          · exact h2
        rw [ih6 b hbs hbn2, height_amStep]

theorem reconcile_cols (d : Df) : (reconcile d).cols = expected_cols := rfl

theorem WF_reconcile (d : Df) : WF (reconcile d) := WF_selectCols _ _

theorem getColV_reconcile_mem (d : Df) (h : WF d) (c : String)
    (hc : c ∈ expected_cols) (hm : c ∈ d.cols) :
    getColV (reconcile d) c = getColV d c := by
  unfold reconcile
  rw [getColV_selectCols _ _ _ hc, addMissing_eq_foldl]
  exact (amFold expected_cols d h).2.2.2.2.1 c hm

theorem getColV_reconcile_missing (d : Df) (h : WF d) (c : String)
    (hc : c ∈ expected_cols) (hm : c ∉ d.cols) :
    getColV (reconcile d) c = List.replicate d.height none := by
  unfold reconcile
  rw [getColV_selectCols _ _ _ hc, addMissing_eq_foldl]
  exact (amFold expected_cols d h).2.2.2.2.2 c hm hc

theorem rows_selectCols (names : List String) (df : Df) :
    (selectCols names df).rows =
      df.rows.map (fun r0 => names.map (fun c => cellAt df.cols r0 c)) := rfl

theorem reshape_rows_sel (t : Df) (y : Nat) (l : Option Df) :
    (reshape t y l).rows =
      (selectCols expected_cols (addMissing (shaped t y l))).rows := rfl

theorem insertedRows_year (tests : Option Df) (y : Nat) (lookup : Option Df) :
    ∀ r ∈ insertedRows tests y lookup, yearCell r = some (toString y) := by
  intro r hr
  cases tests with
  | none => simp [insertedRows] at hr
  | some t =>
    simp only [insertedRows] at hr
    by_cases h0 : t.height = 0
    · rw [if_pos h0] at hr
      exact absurd hr (List.not_mem_nil r)
    · rw [if_neg h0] at hr
      by_cases h1 : "test_id" ∈ (renameSelect (synonymLayer t)).cols
      · rw [if_pos h1] at hr
        rw [reshape_rows_sel, rows_selectCols] at hr
        obtain ⟨r0, hr0, rfl⟩ := List.mem_map.mp hr
        have hyk : "year_key" ∈ expected_cols := by decide
        rw [yearCell, cellAt_map_self expected_cols _ "year_key" hyk]
        have hWFs : WF (shaped t y lookup) := WF_shaped t y lookup
        have ham := amFold expected_cols (shaped t y lookup) hWFs
        have hyear := getColV_shaped_year t y lookup
        have hmem : "year_key" ∈ (shaped t y lookup).cols :=
          year_key_mem_shaped t y lookup
        have hpres := ham.2.2.2.2.1 "year_key" hmem
        rw [← addMissing_eq_foldl] at hpres
        have hcol : getColV (addMissing (shaped t y lookup)) "year_key" =
            List.replicate (shaped t y lookup).height (some (toString y)) := by
          rw [hpres, hyear]
        have hmm : cellAt (addMissing (shaped t y lookup)).cols r0 "year_key" ∈
            getColV (addMissing (shaped t y lookup)) "year_key" := by
          simp only [getColV]
          exact List.mem_map_of_mem _ hr0
        rw [hcol] at hmm
        exact List.eq_of_mem_replicate hmm
      · rw [if_neg h1] at hr
        exact absurd hr (List.not_mem_nil r)

theorem run_delete_then_load_true (db : DbState) (tests : Option Df)
    (y : Nat) (lookup : Option Df) :
    run_delete_then_load db tests y lookup true =
      delete_scores_for_year y db ++ insertedRows tests y lookup := by
  cases tests with
  | none => simp [run_delete_then_load, load_tests, insertedRows]
  | some t =>
    simp only [run_delete_then_load, load_tests, insertedRows]
    by_cases h0 : t.height = 0
    · rw [if_pos h0, if_pos h0, List.append_nil]
    · rw [if_neg h0, if_neg h0]
      by_cases h1 : "test_id" ∈ (renameSelect (synonymLayer t)).cols
      · rw [if_pos h1, if_pos h1]
        rfl
      · rw [if_neg h1, if_neg h1, List.append_nil]

/-- C1: running the Fact Loader for a year — the per-year delete of
existing fact rows followed by the load of the reshaped table — twice in
sequence with identical inputs leaves the warehouse fact table in the same
final state as running it once: every inserted row carries the target
year_key, so the second delete removes exactly the rows of the first
insert. -/
theorem fact_loader_idempotent (db : DbState) (tests : Option Df) (y : Nat)
    (lookup : Option Df) :
    run_delete_then_load
      (run_delete_then_load db tests y lookup true) tests y lookup true =
    run_delete_then_load db tests y lookup true := by
  rw [run_delete_then_load_true, run_delete_then_load_true]
  unfold delete_scores_for_year
  rw [List.filter_append]
  have h1 : List.filter (fun r => !(yearCell r == some (toString y)))
      (List.filter (fun r => !(yearCell r == some (toString y))) db) =
      List.filter (fun r => !(yearCell r == some (toString y))) db := by
    apply List.filter_eq_self.mpr
    intro r hr
    exact (List.mem_filter.mp hr).2
  have h2 : List.filter (fun r => !(yearCell r == some (toString y)))
      (insertedRows tests y lookup) = [] := by
    apply List.filter_eq_nil_iff.mpr
    intro r hr
    rw [insertedRows_year tests y lookup r hr]
    simp
  rw [h1, h2, List.append_nil]

/-- A committed fact row of year 2023, shaped by the COPY column list. -/
def dbRowC2 : List Cell := List.replicate 22 (none : Cell) ++ [some "2023"]

/-- A one-row warehouse holding only the 2023 row. -/
def dbC2 : DbState := [dbRowC2]

/-- A minimal tests table that reaches the bulk insert. -/
def tC2 : Df := ⟨["test_id"], [[some "1"]]⟩

/-- C2 counterexample: the year-scoped delete commits in its own
transaction before load_tests opens the transaction of the bulk insert, so
a failing insert does not restore the deleted rows — the prior 2023 row is
gone, refuting the claim that the delete is rolled back with the insert. -/
theorem delete_not_rolled_back_counterexample :
    run_delete_then_load dbC2 (some tC2) 2023 none false ≠ dbC2 := by decide

/-- C2 amended: the delete and the bulk insert run in separate
transactions; when the bulk insert fails, the already committed delete
stays, and the table is left exactly as the delete left it — the rows of
the target year removed, every other row untouched. -/
theorem delete_commits_before_failed_insert (db : DbState)
    (tests : Option Df) (y : Nat) (lookup : Option Df) :
    run_delete_then_load db tests y lookup false =
      delete_scores_for_year y db := by
  cases tests with
  | none => rfl
  | some t =>
    simp only [run_delete_then_load, load_tests]
    by_cases h0 : t.height = 0
    · rw [if_pos h0]
    · rw [if_neg h0]
      by_cases h1 : "test_id" ∈ (renameSelect (synonymLayer t)).cols
      · rw [if_pos h1]
        rfl
      · rw [if_neg h1]

/-- A tests table without a district_code column. -/
def tC3 : Df := ⟨["test_id", "student_group_id"], [[some "1", some "4"]]⟩

set_option maxRecDepth 20000

/-- C3 counterexample: year_key is a canonical column absent from this
input table, yet after the reshape its column holds the target year, not
null — refuting the claim that every canonical column absent from the
input comes out as an all-null column. -/
theorem reshape_missing_not_all_null_counterexample :
    "year_key" ∈ expected_cols ∧ "year_key" ∉ tC3.cols ∧
    getColV (reshape tC3 2022 none) "year_key" ≠
      List.replicate (reshape tC3 2022 none).height (none : Cell) := by decide

/-- C3 amended: after the reshape, the output has exactly the canonical
columns in canonical order and rows of exactly that width; every canonical
column still absent after the rename, year-tagging, padding and
enrichment steps is an explicit all-null column; every canonical column
present at that point keeps its values under its own name, so no value
moves to another canonical position; and year_key always holds the target
year rather than null. -/
theorem reshape_reconciles (t : Df) (y : Nat) (lookup : Option Df) :
    (reshape t y lookup).cols = expected_cols ∧
    (∀ r ∈ (reshape t y lookup).rows, r.length = expected_cols.length) ∧
    (∀ c, c ∈ expected_cols → c ∉ (shaped t y lookup).cols →
      getColV (reshape t y lookup) c =
        List.replicate (shaped t y lookup).height (none : Cell)) ∧
    (∀ c, c ∈ expected_cols → c ∈ (shaped t y lookup).cols →
      getColV (reshape t y lookup) c = getColV (shaped t y lookup) c) ∧
    getColV (reshape t y lookup) "year_key" =
      List.replicate (shaped t y lookup).height (some (toString y)) := by
  have hWFs : WF (shaped t y lookup) := WF_shaped t y lookup
  have hmemc : ∀ c, c ∈ expected_cols → c ∈ (shaped t y lookup).cols →
      getColV (reshape t y lookup) c = getColV (shaped t y lookup) c :=
    fun c hc hm => getColV_reconcile_mem _ hWFs c hc hm
  refine ⟨rfl, ?_, ?_, hmemc, ?_⟩
  · intro r hr
    have := WF_reconcile (shaped t y lookup) r hr
    simpa [reconcile, selectCols] using this
  · intro c hc hm
    exact getColV_reconcile_missing _ hWFs c hc hm
  · rw [hmemc "year_key" (by decide) (year_key_mem_shaped t y lookup)]
    exact getColV_shaped_year t y lookup

/-- C3 witness: on a concrete table without district_code, the reshaped
district_code column is all null. -/
theorem reshape_reconciles_witness :
    "district_code" ∈ expected_cols ∧
    "district_code" ∉ (shaped tC3 2022 none).cols ∧
    getColV (reshape tC3 2022 none) "district_code" =
      List.replicate (shaped tC3 2022 none).height (none : Cell) :=
  ⟨by decide, by decide,
    (reshape_reconciles tC3 2022 none).2.2.1 "district_code"
      (by decide) (by decide)⟩

/-- A tests table without a test_id column. -/
def tC7 : Df := ⟨["student_group_id", "grade"], [[some "1", some "3"]]⟩

/-- C7: when the table lacks test_id after the rename steps, load_tests
returns without touching the warehouse and without raising: the fact table
it leaves behind is exactly the one it was given, whatever the state of
the insert transaction would have been. -/
theorem load_tests_skips_without_test_id (db : DbState) (t : Df) (y : Nat)
    (lookup : Option Df) (insertOk : Bool)
    (h : "test_id" ∉ (renameSelect (synonymLayer t)).cols) :
    load_tests db (some t) y lookup insertOk = .ok db := by
  simp only [load_tests]
  by_cases h0 : t.height = 0
  · rw [if_pos h0]
  · rw [if_neg h0, if_neg h]

/-- C7 witness: a concrete table without test_id is skipped whole, with
the warehouse unchanged and a normal return, under both insert outcomes. -/
theorem load_tests_skips_without_test_id_witness :
    load_tests [] (some tC7) 2023 none true = .ok [] ∧
    load_tests [] (some tC7) 2023 none false = .ok [] :=
  ⟨load_tests_skips_without_test_id [] tC7 2023 none true (by decide),
   load_tests_skips_without_test_id [] tC7 2023 none false (by decide)⟩

/-- C4: a normalized column set satisfying the tests signature is
classified as tests — the tests check runs first — and such a set can
never satisfy the entities signature, since entities requires test_type to
be absent while tests requires it present; so no table is classified both
ways. -/
theorem classification_mutually_exclusive (cols : List String)
    (h : tests_signature cols = true) :
    classify_columns cols = some TableKind.tests ∧
    entities_signature cols = false := by
  constructor
  · simp [classify_columns, h]
  · simp only [tests_signature, Bool.and_eq_true] at h
    simp only [entities_signature, h.1.1.1.1, Bool.not_true, Bool.and_false]

/-- A normalized column set holding the tests signature together with all
entities signature columns. -/
def colsC4 : List String :=
  ["test_type", "test_id", "student_group_id", "mean_scale_score",
   "total_students_tested_with_scores", "county_code", "district_code",
   "school_code", "type_id", "test_year"]

/-- C4 witness: the concrete superset column list classifies as tests and
fails the entities signature. -/
theorem classification_mutually_exclusive_witness :
    classify_columns colsC4 = some TableKind.tests ∧
    entities_signature colsC4 = false :=
  classification_mutually_exclusive colsC4 (by decide)

theorem zfillL_length (w : Nat) (s : List Char) :
    (zfillL w s).length = max w s.length := by
  cases s with
  | nil => simp [zfillL]
  | cons c rest =>
    simp only [zfillL]
    split
    · simp only [List.length_cons, List.length_append, List.length_replicate]
      omega
    · simp only [List.length_append, List.length_replicate, List.length_cons]
      omega

/-- C5: for codes of natural widths at most 2, 5 and 7, the Fact Loader
pads each code independently to its width with zfill before concatenating
county, district and school in that fixed order, so the composite code has
length exactly 14 and slicing at positions 2 and 7 recovers the three
padded segments. -/
theorem padded_cds_code (c d s : List Char) (hc : c.length ≤ 2)
    (hd : d.length ≤ 5) (hs : s.length ≤ 7) :
    (zfillL 2 c ++ zfillL 5 d ++ zfillL 7 s).length = 14 ∧
    (zfillL 2 c ++ zfillL 5 d ++ zfillL 7 s).take 2 = zfillL 2 c ∧
    ((zfillL 2 c ++ zfillL 5 d ++ zfillL 7 s).drop 2).take 5 = zfillL 5 d ∧
    (zfillL 2 c ++ zfillL 5 d ++ zfillL 7 s).drop 7 = zfillL 7 s := by
  have l2 : (zfillL 2 c).length = 2 := by rw [zfillL_length]; omega
  have l5 : (zfillL 5 d).length = 5 := by rw [zfillL_length]; omega
  have l7 : (zfillL 7 s).length = 7 := by rw [zfillL_length]; omega
  refine ⟨?_, ?_, ?_, ?_⟩
  · simp [l2, l5, l7]
  · rw [List.append_assoc]
    exact List.take_left' l2
  · rw [List.append_assoc, List.drop_left' l2]
    exact List.take_left' l5
  · exact List.drop_left' (by simp [l2, l5])

/-- C5 witness: concrete codes of widths 1, 2 and 0 pad to 01, 00023 and
0000000, concatenate to a 14-character composite, and slice back apart. -/
theorem padded_cds_code_witness :
    (zfillL 2 ['1'] ++ zfillL 5 ['2', '3'] ++ zfillL 7 []).length = 14 ∧
    (zfillL 2 ['1'] ++ zfillL 5 ['2', '3'] ++ zfillL 7 []).take 2 =
      zfillL 2 ['1'] ∧
    ((zfillL 2 ['1'] ++ zfillL 5 ['2', '3'] ++ zfillL 7 []).drop 2).take 5 =
      zfillL 5 ['2', '3'] ∧
    (zfillL 2 ['1'] ++ zfillL 5 ['2', '3'] ++ zfillL 7 []).drop 7 =
      zfillL 7 [] :=
  padded_cds_code ['1'] ['2', '3'] [] (by decide) (by decide) (by decide)

/-- C6: each synonym rename of the legacy layer fires only when its
canonical column name is absent — a table already carrying the canonical
name passes through that rename unchanged, for the students_tested rename
and for both tested-with-scores renames. -/
theorem synonym_rename_skipped_when_canonical_present (df : Df) :
    ("total_students_tested" ∈ df.cols → synStep1 df = df) ∧
    ("total_students_tested_with_scores" ∈ df.cols → synStep2 df = df) := by
  constructor
  · intro h
    simp only [synStep1]
    rw [if_neg]
    intro hc
    exact hc.2 h
  · intro h
    simp only [synStep2]
    rw [if_neg, if_neg]
    · intro hc
      exact hc.2 h
    · intro hc
      exact hc.2 h

/-- A table already carrying both canonical names next to their legacy
synonyms. -/
def dfC6 : Df :=
  ⟨["students_tested", "total_students_tested", "students_with_scores",
    "total_tested_with_scores_at_reporting_level",
    "total_students_tested_with_scores"],
   [[some "1", some "2", some "3", some "4", some "5"]]⟩

/-- C6 witness: the concrete table with canonical names present is left
untouched by both synonym rename steps. -/
theorem synonym_rename_skipped_when_canonical_present_witness :
    synStep1 dfC6 = dfC6 ∧ synStep2 dfC6 = dfC6 :=
  ⟨(synonym_rename_skipped_when_canonical_present dfC6).1 (by decide),
   (synonym_rename_skipped_when_canonical_present dfC6).2 (by decide)⟩

theorem dedupFirstAux_sublist (l : List String) :
    ∀ seen, (dedupFirstAux seen l).Sublist l := by
  induction l with
  | nil => intro seen; simp [dedupFirstAux]
  | cons x xs ih =>
    intro seen
    simp only [dedupFirstAux]
    by_cases h : x ∈ seen
    · rw [if_pos h]
      exact (ih seen).cons x
    · rw [if_neg h]
      exact (ih (x :: seen)).cons₂ x

theorem dedupFirstAux_not_seen (l : List String) :
    ∀ seen x, x ∈ dedupFirstAux seen l → x ∉ seen := by
  induction l with
  | nil => intro seen x hx; simp [dedupFirstAux] at hx
  | cons y ys ih =>
    intro seen x hx
    simp only [dedupFirstAux] at hx
    by_cases h : y ∈ seen
    · rw [if_pos h] at hx
      exact ih seen x hx
    · rw [if_neg h] at hx
      rcases List.mem_cons.mp hx with he | ht
      · exact he ▸ h
      · intro hs
        exact ih (y :: seen) x ht (List.mem_cons_of_mem y hs)

theorem dedupFirstAux_nodup (l : List String) :
    ∀ seen, (dedupFirstAux seen l).Nodup := by
  induction l with
  | nil => intro seen; simp [dedupFirstAux]
  | cons y ys ih =>
    intro seen
    simp only [dedupFirstAux]
    by_cases h : y ∈ seen
    · rw [if_pos h]
      exact ih seen
    · rw [if_neg h]
      refine List.nodup_cons.mpr ⟨?_, ih (y :: seen)⟩
      intro hy
      exact dedupFirstAux_not_seen ys (y :: seen) y hy (List.mem_cons_self y seen)

/-- A listing page with three links passing the selection filter — the
first repeated once — and two .zip links failing it. -/
def pageC8 : String :=
  "<a href=\"/sb_csv_all_2023.zip\">a</a><a href=\"/sb_math_csv.zip\">b</a><a href=\"/SB_CSV_All_v2.ZIP\">c</a><a href=\"/other_all.zip\">d</a><a href=\"/sb_csv_v3all.zip\">e</a><a href=\"/sb_csv_all_2023.zip\">f</a>"

/-- A listing page with no matching archive link at all. -/
def pageC8none : String := "<p>no archive links here</p>"

/-- C8 amended: the Archive Locator returns a deduplicated,
order-preserving list of URLs in which root-relative links — those
starting with a slash — are resolved against the publisher host while any
other matching href is returned as written; a page with three matching and
two non-matching links yields exactly those three in page order with the
duplicate removed, and a page with no match yields the empty list rather
than an error. -/
theorem archive_locator_contract :
    (∀ html : String, (caret_zip_urls html).Nodup) ∧
    (∀ html : String, (caret_zip_urls html).Sublist
      (((scanZipHrefs html).map resolveUrl).filter zipFilter)) ∧
    caret_zip_urls pageC8 =
      ["https://caaspp-elpac.ets.org/sb_csv_all_2023.zip",
       "https://caaspp-elpac.ets.org/SB_CSV_All_v2.ZIP",
       "https://caaspp-elpac.ets.org/sb_csv_v3all.zip"] ∧
    caret_zip_urls pageC8none = [] := by
  refine ⟨?_, ?_, by decide, by decide⟩
  · intro html
    exact dedupFirstAux_nodup _ []
  · intro html
    exact dedupFirstAux_sublist _ []

/-- A listing page whose only matching link is relative without a leading
slash. -/
def pageC8rel : String := "<a href=\"sb_csv_all.zip\">r</a>"

/-- C8 counterexample: a matching href that is relative but does not start
with a slash is returned as written, so the output is not a list of
absolute URLs — refuting the claim that every returned URL is absolute
with relative links resolved against the host. -/
theorem archive_locator_not_absolute_counterexample :
    caret_zip_urls pageC8rel = ["sb_csv_all.zip"] ∧
    isAbsoluteUrl "sb_csv_all.zip" = false := by decide

theorem headNotSep_append (a b : List Char) (h : headNotSep a = true) :
    headNotSep (a ++ b) = true := by
  cases a with
  | nil => simp [headNotSep] at h
  | cons c cs => simpa [headNotSep] using h

theorem lastNotSep_append (a b : List Char) (h : lastNotSep b = true) :
    lastNotSep (a ++ b) = true := by
  unfold lastNotSep
  rw [List.reverse_append]
  exact headNotSep_append _ _ h

theorem dropWhile_of_headNotSep (l : List Char) (h : headNotSep l = true) :
    l.dropWhile isSepChar = l := by
  cases l with
  | nil => rfl
  | cons c cs =>
    simp only [headNotSep, Bool.not_eq_true'] at h
    simp [List.dropWhile_cons, h]

theorem dropWhile_all_sep (l : List Char) (h : ∀ c ∈ l, isSepChar c = true) :
    ∀ X : List Char,
      List.dropWhile isSepChar (l ++ X) = List.dropWhile isSepChar X := by
  induction l with
  | nil => intro X; rfl
  | cons c cs ih =>
    intro X
    rw [List.cons_append, List.dropWhile_cons]
    rw [if_pos (h c (List.mem_cons_self c cs))]
    exact ih (fun x hx => h x (List.mem_cons_of_mem c hx)) X

theorem stripEnds_id (l : List Char) (h1 : headNotSep l = true)
    (h2 : lastNotSep l = true) : stripEnds isSepChar l = l := by
  unfold stripEnds
  rw [dropWhile_of_headNotSep l h1, dropWhile_of_headNotSep l.reverse h2,
    List.reverse_reverse]

theorem stripEnds_sep_tail (l tail : List Char) (h1 : headNotSep l = true)
    (h2 : lastNotSep l = true) (ht : ∀ c ∈ tail, isSepChar c = true) :
    stripEnds isSepChar (l ++ tail) = l := by
  unfold stripEnds
  rw [dropWhile_of_headNotSep _ (headNotSep_append _ _ h1)]
  rw [List.reverse_append]
  rw [dropWhile_all_sep tail.reverse
    (fun c hc => ht c (List.mem_reverse.mp hc)) _]
  rw [dropWhile_of_headNotSep _ h2]
  exact List.reverse_reverse l

theorem intercalate_three (sep a b c : List Char) :
    List.intercalate sep [a, b, c] = a ++ sep ++ b ++ sep ++ c := by
  simp [List.intercalate, List.intersperse, List.append_assoc]

/-- C9: the entity label is the pipe-separator join of the trimmed county
name suffixed with County, the trimmed district name and the trimmed
school name, with leading and trailing separator characters stripped.
When the school segment is present and separator-free at its edge the
label keeps all three segments in place, and when the school name is
empty — a district-level row — the label ends with the district segment,
with no trailing empty school placeholder. -/
theorem entity_label_join (county district school : Option String)
    (hc : headNotSep (pyTrim (county.getD "").toList ++ " County".toList) =
      true) :
    (lastNotSep (pyTrim (school.getD "").toList) = true →
      entityLabelL county district school =
        pyTrim (county.getD "").toList ++ " County".toList ++ " | ".toList ++
        pyTrim (district.getD "").toList ++ " | ".toList ++
        pyTrim (school.getD "").toList) ∧
    (pyTrim (school.getD "").toList = [] →
     lastNotSep (pyTrim (district.getD "").toList) = true →
      entityLabelL county district school =
        pyTrim (county.getD "").toList ++ " County".toList ++ " | ".toList ++
        pyTrim (district.getD "").toList) := by
  constructor
  · intro hs
    unfold entityLabelL
    rw [intercalate_three]
    apply stripEnds_id
    · exact headNotSep_append _ _ (headNotSep_append _ _
        (headNotSep_append _ _ (headNotSep_append _ _ hc)))
    · exact lastNotSep_append _ _ hs
  · intro hs hd
    unfold entityLabelL
    rw [intercalate_three, hs, List.append_nil]
    apply stripEnds_sep_tail
    · exact headNotSep_append _ _ (headNotSep_append _ _ hc)
    · exact lastNotSep_append _ _ hd
    · decide

/-- C9 witness: a school-level row keeps all three segments and a
district-level row of the same entity ends at the district segment. -/
theorem entity_label_join_witness :
    entityLabelL (some "Los Angeles") (some "LAUSD") (some "Lincoln High") =
      ("Los Angeles County | LAUSD | Lincoln High").toList ∧
    entityLabelL (some "Los Angeles") (some "LAUSD") (some "") =
      ("Los Angeles County | LAUSD").toList :=
  ⟨by
    rw [(entity_label_join (some "Los Angeles") (some "LAUSD")
      (some "Lincoln High") (by decide)).1 (by decide)]
    decide,
   by
    rw [(entity_label_join (some "Los Angeles") (some "LAUSD")
      (some "") (by decide)).2 (by decide) (by decide)]
    decide⟩

/-- C10: in both delimited-text readers, a source cell equal to the empty
string, NA, N/A or the suppression asterisk parses to a null cell, any
other cell keeps its text, and each reader applies exactly this rule to
every field of every line of its separator. -/
theorem null_sentinels_parse_null :
    (∀ f : String, f ∈ null_values → nullifyCell f = none) ∧
    (∀ f : String, f ∉ null_values → nullifyCell f = some f) ∧
    (∀ raw : String, read_caret_csv raw =
      (raw.toList.splitOn '\n').map
        (fun line => (line.splitOn '^').map (fun f => nullifyCell f.asString))) ∧
    (∀ raw : String, read_comma_csv raw =
      (raw.toList.splitOn '\n').map
        (fun line => (line.splitOn ',').map (fun f => nullifyCell f.asString))) := by
  refine ⟨?_, ?_, fun raw => rfl, fun raw => rfl⟩
  · intro f h
    simp [nullifyCell, h]
  · intro f h
    simp [nullifyCell, h]

/-- C10 witness: the four sentinels parse to null and an ordinary numeric
cell survives, so an asterisk-suppressed caret row comes out with null
fields. -/
theorem null_sentinels_parse_null_witness :
    nullifyCell "" = none ∧ nullifyCell "NA" = none ∧
    nullifyCell "N/A" = none ∧ nullifyCell "*" = none ∧
    nullifyCell "2430" = some "2430" :=
  ⟨null_sentinels_parse_null.1 "" (by decide),
   null_sentinels_parse_null.1 "NA" (by decide),
   null_sentinels_parse_null.1 "N/A" (by decide),
   null_sentinels_parse_null.1 "*" (by decide),
   null_sentinels_parse_null.2.1 "2430" (by decide)⟩
